import Mathlib

/-!
Verification of the OpenChat2.0 backend's chat orchestration and streaming
pipeline (`backend/app.py`, `backend/provider/ollama.py`,
`backend/memory/store.py`) against its natural-language specification.

The Python source is shallowly embedded: pure string manipulation becomes
executable Lean functions over `List Char` / `String`; the effectful parts
(backend availability, the installed-model listing, the chunk iterator of
`llm.stream`, the `llm.invoke` result, the title-boost response) become an
explicit environment record, and exceptions become `Except` / event lists.
-/

namespace OpenChat

/-- Python's `\s` character class (`str.strip()` whitespace, ASCII part):
space, tab, newline, carriage return, vertical tab, form feed. -/
def pySpace (c : Char) : Bool :=
  c == ' ' || c == '\t' || c == '\n' || c == '\r' || c == '\x0b' || c == '\x0c'

/-- Python `str.strip()` on a character list: drop leading whitespace. -/
def ldropSpace (l : List Char) : List Char := l.dropWhile pySpace

/-- Drop a maximal trailing run of characters satisfying `p`
(the effect of Python's right-hand strip / a `[...]+$` regex substitution). -/
def rdrop (p : Char → Bool) : List Char → List Char
  | [] => []
  | c :: cs =>
    match rdrop p cs with
    | [] => if p c then [] else [c]
    | r => c :: r

/-- Python `str.strip()` (both ends). -/
def pyStripL (l : List Char) : List Char := rdrop pySpace (ldropSpace l)

/-- Python `str.strip()` on a `String`. -/
def pyStripS (s : String) : String := ⟨pyStripL s.data⟩

/-- Python truthiness-based defaulting `a or b` for an optional string:
`None` and the empty string are falsy. -/
def pyOrStr (a : Option String) (b : String) : String :=
  match a with
  | none => b
  | some s => if s = "" then b else s

/-! ## Data model (`app.py` pydantic models) -/

/-- `HistoryItem(role, content)` from `app.py`. -/
structure HistoryItem where
  role : String
  content : String
deriving DecidableEq

/-- The `conversation_id` entry of `ChatRequest.user_context`
(the only key the endpoints read). -/
structure UserContext where
  conversationId : Option String
deriving DecidableEq

/-- `ChatRequest` from `app.py`. -/
structure ChatRequest where
  message : String
  history : Option (List HistoryItem) := none
  model : Option String := none
  system : Option String := none
  toolsEnabled : Option Bool := some false
  reasoningEnabled : Option Bool := some false
  userContext : Option UserContext := none
deriving DecidableEq

/-- `req.history or []`. -/
def pyHist (req : ChatRequest) : List HistoryItem := req.history.getD []

/-! ## Model resolver (`provider/ollama.py`, `get_llm`) -/

/-- Python list repr of a list of strings, as interpolated by the f-string
`{names}` in the `get_llm` error message. -/
def pyReprList (names : List String) : String :=
  "[" ++ String.intercalate ", " (names.map (fun n => "'" ++ n ++ "'")) ++ "]"

/-- The error message raised by `get_llm` when a specifically requested
model is not installed. -/
def notInstalledMsg (selected : String) (names : List String) : String :=
  "Requested model '" ++ selected ++ "' is not installed in Ollama. Install it (e.g., 'ollama pull "
    ++ selected ++ "') or select an installed model: " ++ pyReprList names

/-- The fixed ordered preference list in `get_llm`. -/
def defaultCands : List String :=
  ["llama3.1:8b", "llama3.1", "llama3:8b", "qwen2.5:7b", "mistral:7b"]

/-- The `for cand in (...): if cand in names: selected = cand; break` loop. -/
def pickCand (names : List String) : List String → Option String
  | [] => none
  | c :: cs => if names.contains c then some c else pickCand names cs

/-- `get_llm(model, streaming)` from `provider/ollama.py`.
`avail` is the provider module's `OLLAMA_AVAILABLE` flag, `names` the
result of `list_models()`. Success carries the `(model, streaming)` pair
the `ChatOllama` handle is constructed with; failure carries the raised
message. -/
def get_llm (avail : Bool) (model : Option String) (names : List String)
    (streaming : Bool) : Except String (String × Bool) :=
  if !avail then .error "langchain-ollama not installed"
  else
    let selected := model.getD ""
    if selected ≠ "" then
      if names.contains selected then .ok (selected, streaming)
      else .error (notInstalledMsg selected names)
    else
      match pickCand names defaultCands with
      | some c => .ok (c, streaming)
      | none => .ok ((match names with | [] => "llama3.1" | n :: _ => n), streaming)

/-! ## Message assembler (shared by `/chat` and `/lcel/chat/sse`) -/

/-- A model-input message: `HumanMessage` or `AIMessage`. -/
inductive Msg where
  | human (content : String)
  | ai (content : String)
deriving DecidableEq

/-- Python slice `l[-n:]`. -/
def lastN (n : Nat) (l : List α) : List α := l.drop (l.length - n)

/-- Python `str.lower()` (ASCII letters, the only ones roles use). -/
def pyLower (s : String) : String := ⟨s.data.map Char.toLower⟩

/-- `(h.role or "").lower() == "assistant"`. -/
def roleIsAssistant (r : String) : Bool := pyLower r == "assistant"

/-- The message-list construction of `/chat` and `/lcel/chat/sse`:
optional `[SYSTEM]`-prefixed human message, the last 10 history entries
mapped by role, then the new message as a final human message. -/
def assemble (system : Option String) (history : List HistoryItem)
    (message : String) : List Msg :=
  (if pyStripS (system.getD "") ≠ "" then [Msg.human ("[SYSTEM]\n" ++ system.getD "")] else [])
    ++ (if history.isEmpty then []
        else (lastN 10 history).map
          (fun h => if roleIsAssistant h.role then Msg.ai h.content else Msg.human h.content))
    ++ [Msg.human message]

/-! ## Session history store (`memory/store.py` + SSE seeding) -/

/-- A message appended to a server-side session history. -/
inductive SeedMsg where
  | user (content : String)
  | ai (content : String)
deriving DecidableEq

/-- The `_session_store` dict, as an association list. -/
abbrev Store := List (String × List SeedMsg)

/-- Read a session's history (`get_session_history` without the
create-if-missing side effect; a missing key reads as the fresh empty
history the store would create). -/
def lookupStore : Store → String → List SeedMsg
  | [], _ => []
  | p :: rest, k => if p.1 = k then p.2 else lookupStore rest k

/-- `get_session_history(k)` followed by appending `ms` to that history:
the existing entry is extended in place, a missing entry is created. -/
def storeSeed : Store → String → List SeedMsg → Store
  | [], k, ms => [(k, ms)]
  | p :: rest, k, ms =>
    if p.1 = k then (p.1, p.2 ++ ms) :: rest else p :: storeSeed rest k ms

/-- `session_id = (req.user_context or {}).get("conversation_id") or "default"`
(identical in `/chat` and `/lcel/chat/sse`). -/
def sessionId (req : ChatRequest) : String :=
  match req.userContext with
  | none => "default"
  | some uc =>
    match uc.conversationId with
    | none => "default"
    | some s => if s = "" then "default" else s

/-- The history entries the SSE endpoint mirrors into the store:
the last 10 supplied history items, mapped by role. -/
def seedMsgs (req : ChatRequest) : List SeedMsg :=
  if (pyHist req).isEmpty then []
  else (lastN 10 (pyHist req)).map
    (fun h => if roleIsAssistant h.role then SeedMsg.ai h.content else SeedMsg.user h.content)

/-! ## Environment: the effectful collaborators of one request -/

instance {ε α : Type} [DecidableEq ε] [DecidableEq α] : DecidableEq (Except ε α) := fun a b =>
  match a, b with
  | .ok x, .ok y =>
    if h : x = y then .isTrue (h ▸ rfl) else .isFalse (fun hh => h (Except.ok.inj hh))
  | .error x, .error y =>
    if h : x = y then .isTrue (h ▸ rfl) else .isFalse (fun hh => h (Except.error.inj hh))
  | .ok _, .error _ => .isFalse (fun hh => Except.noConfusion hh)
  | .error _, .ok _ => .isFalse (fun hh => Except.noConfusion hh)

/-- The observable behavior of the external collaborators during one
request: module availability flags, the installed-model listing, the
chunks and terminal outcome of `llm.stream`, the `llm.invoke` result,
and the title-boost response (`none` = timeout or failure). -/
structure Backend where
  ollamaAvailable : Bool
  providerAvailable : Bool
  names : List String
  chunks : List String
  streamFail : Option String
  invokeResult : Except String String
  boostResponse : Option String
deriving DecidableEq

/-- The SSE endpoint's effect on the session store. When the integration
is absent, `event_stream` returns the fallback events before the seeding
block is reached and performs no store access; otherwise
`get_session_history` plus the append loop extend the session's history
in place. -/
def sseSeed (env : Backend) (st : Store) (req : ChatRequest) : Store :=
  if !env.ollamaAvailable then st
  else storeSeed st (sessionId req) (seedMsgs req)

/-! ## Streaming pipeline (`event_stream` in `/lcel/chat/sse`) -/

/-- One SSE `data:` payload. -/
inductive StreamEvent where
  | meta (model : String) (historyLen : Nat)
  | token (text : String)
  | error (msg : String)
  | done
deriving DecidableEq

/-- Recognizer for `error` events. -/
def isErrorEv : StreamEvent → Bool
  | .error _ => true
  | _ => false

/-- Recognizer for `done` events. -/
def isDoneEv : StreamEvent → Bool
  | .done => true
  | _ => false

/-- The fallback token text emitted when `langchain-ollama` is absent. -/
def fallbackTokenText : String :=
  "Backend running. Install langchain-ollama for live streaming. "

/-- The event sequence produced by `event_stream`: fallback when the
integration is absent; otherwise `get_llm` failure yields an error event;
otherwise a meta event, one token event per non-empty chunk, an error
event if iteration raised, and in every case a final `done` from the
`finally` block. -/
def eventStream (env : Backend) (req : ChatRequest) : List StreamEvent :=
  if !env.ollamaAvailable then
    [.token fallbackTokenText, .done]
  else
    match get_llm env.providerAvailable (some (pyOrStr req.model "llama3.1")) env.names true with
    | .error e => [.error e, .done]
    | .ok (selected, _) =>
      .meta selected (pyHist req).length
        :: (env.chunks.filter (· ≠ "")).map .token
        ++ (match env.streamFail with | some e => [.error e] | none => [])
        ++ [.done]

/-! ## One-shot chat (`/chat`) -/

/-- The `output` field returned by `/chat`. -/
def chatOutput (env : Backend) (req : ChatRequest) : String :=
  if !env.ollamaAvailable then
    "Backend is running, but langchain-ollama is not installed."
  else
    match get_llm env.providerAvailable (some (pyOrStr req.model "llama3.1")) env.names false with
    | .error e => "Error from model: " ++ e
    | .ok _ =>
      match env.invokeResult with
      | .ok t => t
      | .error e => "Error from model: " ++ e

/-- `/chat` together with its effect on the session store: the endpoint
computes `session_id` but never calls `get_session_history`, so the store
is returned unchanged. -/
def chatWithStore (env : Backend) (st : Store) (req : ChatRequest) :
    String × Store :=
  (chatOutput env req, st)

/-! ## Title heuristic (`_heuristic_title`) -/

/-- The backquote character, `` ` ``. -/
def backq : Char := Char.ofNat 96

/-- The single-quote character, `'`. -/
def squote : Char := Char.ofNat 39

/-- Split a character list at the first occurrence of three consecutive
backquotes: `some (before, after)` with the three backquotes dropped. -/
def findTriple : List Char → Option (List Char × List Char)
  | a :: b :: c :: rest =>
    if a == backq && b == backq && c == backq then some ([], rest)
    else
      match findTriple (b :: c :: rest) with
      | none => none
      | some (p, r) => some (a :: p, r)
  | _ => none

/-- Fuel-driven worker for `re.sub(r"```[\s\S]*?```", " ", text)`:
each leftmost-shortest fenced region (opening fence, minimal content,
closing fence) is replaced by a single space; an unmatched opening fence
is left untouched. -/
def stripFencesGo : Nat → List Char → List Char
  | 0, l => l
  | Nat.succ fuel, l =>
    match findTriple l with
    | none => l
    | some (pre, rest) =>
      match findTriple rest with
      | none => l
      | some (_, rest2) => pre ++ ' ' :: stripFencesGo fuel rest2

/-- `re.sub(r"```[\s\S]*?```", " ", text)`. -/
def stripFences (l : List Char) : List Char := stripFencesGo l.length l

/-- Fuel-driven worker for `re.sub(r"^#+\s*", "", text, flags=re.M)`:
at the start of the text and after each newline, a run of `#` followed by
a greedy run of whitespace is removed; scanning resumes after the match,
which is a line start only when the last removed whitespace character was
a newline. -/
def stripHeadingsGo : Nat → Bool → List Char → List Char
  | 0, _, l => l
  | Nat.succ fuel, atStart, l =>
    match l with
    | [] => []
    | c :: cs =>
      if atStart && c == '#' then
        let afterHash := cs.dropWhile (· == '#')
        let spaces := afterHash.takeWhile pySpace
        let rest := afterHash.dropWhile pySpace
        stripHeadingsGo fuel (spaces.getLast? == some '\n') rest
      else
        c :: stripHeadingsGo fuel (c == '\n') cs

/-- `re.sub(r"^#+\s*", "", text, flags=re.M)`. -/
def stripHeadings (l : List Char) : List Char := stripHeadingsGo l.length true l

/-- Worker for `re.sub(r"\s+", " ", text)`: each maximal whitespace run
becomes a single space; the flag records whether the previous character
was whitespace. -/
def collapseAux : Bool → List Char → List Char
  | _, [] => []
  | prevSpace, c :: cs =>
    if pySpace c then
      if prevSpace then collapseAux true cs else ' ' :: collapseAux true cs
    else c :: collapseAux false cs

/-- `re.sub(r"\s+", " ", text)`. -/
def collapseWs (l : List Char) : List Char := collapseAux false l

/-- Python `text.split(" ")`: split at every single space. -/
def splitSp : List Char → List (List Char)
  | [] => [[]]
  | c :: cs =>
    if c == ' ' then [] :: splitSp cs
    else
      match splitSp cs with
      | [] => [[c]]
      | w :: ws => (c :: w) :: ws

/-- Python `" ".join(words)`. -/
def joinSp : List (List Char) → List Char
  | [] => []
  | [w] => w
  | w :: ws => w ++ ' ' :: joinSp ws

/-- The character class of `text.strip("\"'` ")`. -/
def isQuoteStrip (c : Char) : Bool :=
  c == '"' || c == squote || c == backq || c == ' '

/-- The character class of `re.sub(r"[\.,;:!?\-\s]+$", "", text)`. -/
def isPunctStrip (c : Char) : Bool :=
  c == '.' || c == ',' || c == ';' || c == ':' || c == '!' || c == '?' || c == '-' || pySpace c

/-- The word-count truncation of `_heuristic_title`:
`if len(words) > max_words: text = " ".join(words[:max_words])`. -/
def truncWords (t2 : List Char) (maxWords : Nat) : List Char :=
  if (splitSp t2).length > maxWords then joinSp ((splitSp t2).take maxWords) else t2

/-- The two final end-strips of `_heuristic_title`:
`text.strip("\"'` ")` then `re.sub(r"[\.,;:!?\-\s]+$", "", text)`. -/
def stripEnds (t3 : List Char) : List Char :=
  rdrop isPunctStrip (rdrop isQuoteStrip (t3.dropWhile isQuoteStrip))

/-- The text-shaping pipeline of `_heuristic_title` after the source text
has been selected: fence and heading removal, whitespace collapsing and
strip, word-count truncation, end strips, and the `"New Chat"` fallback. -/
def finalizeTitle (text : List Char) (maxWords : Nat) : List Char :=
  let t5 := stripEnds
    (truncWords (pyStripL (collapseWs (stripHeadings (stripFences text)))) maxWords)
  if t5.isEmpty then "New Chat".data else t5

/-- The source-text selection of `_heuristic_title`: the most recent
message with role `user` and non-blank content, else the most recent
message with non-blank content, else empty. -/
def selectText (messages : List HistoryItem) : String :=
  match messages.reverse.find?
      (fun m => pyLower m.role == "user" && pyStripS m.content ≠ "") with
  | some m => m.content
  | none =>
    match messages.reverse.find? (fun m => pyStripS m.content ≠ "") with
    | some m => m.content
    | none => ""

/-- `_heuristic_title(messages, max_words)` from `app.py`. -/
def heuristicTitle (messages : List HistoryItem) (maxWords : Nat) : String :=
  let text := pyStripS (pyOrStr (some (selectText messages)) "New Chat")
  ⟨finalizeTitle text.data maxWords⟩

/-! ## Title endpoint (`/title`, `generate_title`) -/

/-- Line-break characters recognized by Python `str.splitlines`
(the ASCII ones the model response can realistically contain). -/
def isLineBreak (c : Char) : Bool :=
  c == '\n' || c == '\r' || c == '\x0b' || c == '\x0c'

/-- The character-level part of the boost-response cleanup in
`generate_title`: strip, take the first line, re-strip, remove every
quote/backquote character, strip trailing punctuation. -/
def boostCleanCore (r : String) : List Char :=
  rdrop isPunctStrip
    ((pyStripL ((pyStripL r.data).takeWhile (fun c => !isLineBreak c))).filter
      (fun c => !(c == '"' || c == squote || c == backq)))

/-- The boost-response cleanup of `generate_title`. `none` when the
response strips to nothing (in the source either an `IndexError` on
`splitlines()[0]` absorbed by the outer handler, or the falsy `if txt:`
guard), in which case the heuristic result is used. -/
def boostClean (r : String) : Option String :=
  if (pyStripL r.data).isEmpty then none
  else if (boostCleanCore r).isEmpty then none else some ⟨boostCleanCore r⟩

/-- `generate_title` (`/title`): the heuristic baseline, optionally
replaced by the cleaned time-boxed model response when the integration is
available, the handle is obtained, the call answers in time, and the
cleaned response is non-empty. -/
def generateTitle (env : Backend) (messages : List HistoryItem)
    (model : Option String) (maxWords : Nat) : String :=
  let base := heuristicTitle messages maxWords
  if env.ollamaAvailable then
    match get_llm env.providerAvailable model env.names false with
    | .error _ => base
    | .ok _ =>
      match env.boostResponse with
      | none => base
      | some r =>
        match boostClean r with
        | some t => t
        | none => base
  else base

/-! ## Whitespace-delimited token counting (for the spec's bounds) -/

/-- Number of whitespace-delimited tokens, scanning with an
inside-a-token flag. -/
def tokensAux : Bool → List Char → Nat
  | _, [] => 0
  | inWord, c :: cs =>
    if pySpace c then tokensAux false cs
    else (if inWord then 0 else 1) + tokensAux true cs

/-- Number of whitespace-delimited tokens of a string. -/
def tokensS (s : String) : Nat := tokensAux false s.data

/-! ## Theorems -/

/-- C4 counterexample: on the Scenario D message the heuristic does NOT
yield "Deploy the service" — the regex `^#+\s*` removes only the heading
marker, not the heading text, so "Heading" survives. -/
theorem scenarioD_counterexample :
    heuristicTitle [⟨"user", "```code fence```\n# Heading\nDeploy the service"⟩] 6
      ≠ "Deploy the service" := by decide

/-- C4 (amended): for the single message
"```code fence```\n# Heading\nDeploy the service" with max_words = 6, the
heuristic strips the fenced code block and the leading heading marker and
yields exactly "Heading Deploy the service". -/
theorem scenarioD_amended :
    heuristicTitle [⟨"user", "```code fence```\n# Heading\nDeploy the service"⟩] 6
      = "Heading Deploy the service" := by decide

/-- C7: when the backend integration is unavailable and streaming is
requested, the stream consists of exactly two events: one informational
token event followed by one done event. -/
theorem stream_fallback (env : Backend) (req : ChatRequest)
    (h : env.ollamaAvailable = false) :
    eventStream env req = [.token fallbackTokenText, .done] := by
  unfold eventStream
  simp [h]

/-- Witness for `stream_fallback` at a concrete environment and request. -/
theorem stream_fallback_witness :
    (Backend.ollamaAvailable ⟨false, false, [], [], none, .ok "", none⟩ = false)
    ∧ eventStream ⟨false, false, [], [], none, .ok "", none⟩
        ⟨"hi", none, none, none, none, none, none⟩
      = [.token fallbackTokenText, .done] :=
  ⟨rfl, stream_fallback ⟨false, false, [], [], none, .ok "", none⟩
    ⟨"hi", none, none, none, none, none, none⟩ rfl⟩

/-- C2: requesting a model absent from the installed set fails with the
`ModelNotInstalled`-style error whose message contains both the requested
identifier and the rendered installed list; no other model is returned. -/
theorem resolve_not_installed (m : String) (names : List String) (s : Bool)
    (hm : m ≠ "") (hn : names.contains m = false) :
    get_llm true (some m) names s = .error (notInstalledMsg m names)
    ∧ m.data <:+: (notInstalledMsg m names).data
    ∧ (pyReprList names).data <:+: (notInstalledMsg m names).data := by
  have hn' : m ∉ names := by simpa using hn
  refine ⟨?_, ?_, ?_⟩
  · unfold get_llm
    simp [hm, hn']
  · refine ⟨"Requested model '".data,
      ("' is not installed in Ollama. Install it (e.g., 'ollama pull "
        ++ m ++ "') or select an installed model: " ++ pyReprList names).data, ?_⟩
    simp [notInstalledMsg]
  · refine ⟨("Requested model '" ++ m
      ++ "' is not installed in Ollama. Install it (e.g., 'ollama pull "
      ++ m ++ "') or select an installed model: ").data, [], ?_⟩
    simp [notInstalledMsg]

/-- Witness for `resolve_not_installed`: Scenario B, model "gpt-99"
against installed {llama3.1, mistral:7b}. -/
theorem resolve_not_installed_witness :
    (("gpt-99" : String) ≠ ""
      ∧ (["llama3.1", "mistral:7b"].contains "gpt-99") = false)
    ∧ (get_llm true (some "gpt-99") ["llama3.1", "mistral:7b"] false
        = .error (notInstalledMsg "gpt-99" ["llama3.1", "mistral:7b"])
      ∧ ("gpt-99" : String).data <:+: (notInstalledMsg "gpt-99" ["llama3.1", "mistral:7b"]).data
      ∧ (pyReprList ["llama3.1", "mistral:7b"]).data
          <:+: (notInstalledMsg "gpt-99" ["llama3.1", "mistral:7b"]).data) :=
  ⟨⟨by decide, by decide⟩,
    resolve_not_installed "gpt-99" ["llama3.1", "mistral:7b"] false (by decide) (by decide)⟩

/-- The empty-request selection as the claim words it: first member of
the fixed preference list that is installed, else the first installed
model, else the hardcoded "llama3.1". -/
def resolveDefaultSpec (names : List String) : String :=
  match (["llama3.1:8b", "llama3.1", "llama3:8b", "qwen2.5:7b", "mistral:7b"]).find?
      (fun c => names.contains c) with
  | some c => c
  | none => match names with | [] => "llama3.1" | n :: _ => n

theorem pickCand_eq_find (names : List String) (l : List String) :
    pickCand names l = l.find? (fun c => names.contains c) := by
  induction l with
  | nil => rfl
  | cons c cs ih =>
    by_cases h : c ∈ names <;>
      simp [pickCand, List.find?_cons, h, ih]

/-- C6: with no requested identifier the resolver never fails and returns
exactly the claim's described selection. -/
theorem resolver_default (names : List String) (s : Bool) :
    get_llm true none names s = .ok (resolveDefaultSpec names, s) := by
  have h : (["llama3.1:8b", "llama3.1", "llama3:8b", "qwen2.5:7b", "mistral:7b"] :
        List String).find? (fun c => names.contains c)
      = pickCand names defaultCands :=
    (pickCand_eq_find names defaultCands).symm
  unfold get_llm resolveDefaultSpec
  rw [h]
  rcases hp : pickCand names defaultCands with _ | c
  · cases names <;> simp [hp]
  · simp [hp]

/-- C3: the assembled model-input list has length
(1 if system non-blank else 0) + min(len(history), 10) + 1, keeps only
the last 10 history entries mapped by case-insensitive role, and ends
with the new message as a user-tagged entry. -/
theorem assemble_shape (s : Option String) (h : List HistoryItem) (m : String) :
    (assemble s h m).length
      = (if pyStripS (s.getD "") ≠ "" then 1 else 0) + min h.length 10 + 1
    ∧ assemble s h m
      = (if pyStripS (s.getD "") ≠ "" then [Msg.human ("[SYSTEM]\n" ++ s.getD "")] else [])
          ++ (lastN 10 h).map
              (fun x => if pyLower x.role == "assistant" then Msg.ai x.content
                else Msg.human x.content)
          ++ [Msg.human m] := by
  constructor
  · cases h with
    | nil =>
      by_cases hs : pyStripS (s.getD "") ≠ "" <;> simp [assemble, hs, lastN]
    | cons a t =>
      by_cases hs : pyStripS (s.getD "") ≠ "" <;>
        simp [assemble, hs, lastN] <;> omega
  · cases h with
    | nil =>
      by_cases hs : pyStripS (s.getD "") ≠ "" <;>
        simp [assemble, hs, lastN, roleIsAssistant]
    | cons a t =>
      by_cases hs : pyStripS (s.getD "") ≠ "" <;>
        simp [assemble, hs, lastN, roleIsAssistant]

/-- C9: with no model in the request, both endpoints hand the literal
"llama3.1" to the model factory as an explicit request, so when it is not
installed they take the error path (error text in the one-shot output, an
error event in the stream) instead of the resolver's preference-list
fallback. -/
theorem model_default_literal (env : Backend) (req : ChatRequest)
    (hm : req.model = none) (ha : env.ollamaAvailable = true)
    (hp : env.providerAvailable = true)
    (hn : env.names.contains "llama3.1" = false) :
    chatOutput env req = "Error from model: " ++ notInstalledMsg "llama3.1" env.names
    ∧ eventStream env req = [.error (notInstalledMsg "llama3.1" env.names), .done] := by
  have hn' : "llama3.1" ∉ env.names := by simpa using hn
  have hcall : pyOrStr req.model "llama3.1" = "llama3.1" := by simp [hm, pyOrStr]
  have hg : ∀ b, get_llm env.providerAvailable (some (pyOrStr req.model "llama3.1")) env.names b
      = .error (notInstalledMsg "llama3.1" env.names) := by
    intro b
    rw [hp, hcall]
    unfold get_llm
    simp [hn']
  constructor
  · unfold chatOutput
    simp [ha, hg]
  · unfold eventStream
    simp [ha, hg]

/-- Witness for `model_default_literal` at a concrete environment with
only "mistral:7b" installed. -/
theorem model_default_literal_witness :
    ((⟨"hello", none, none, none, none, none, none⟩ : ChatRequest).model = none
      ∧ (⟨true, true, ["mistral:7b"], [], none, .ok "ok", none⟩ : Backend).ollamaAvailable = true
      ∧ (⟨true, true, ["mistral:7b"], [], none, .ok "ok", none⟩ : Backend).providerAvailable = true
      ∧ ((["mistral:7b"] : List String).contains "llama3.1") = false)
    ∧ (chatOutput ⟨true, true, ["mistral:7b"], [], none, .ok "ok", none⟩
          ⟨"hello", none, none, none, none, none, none⟩
        = "Error from model: " ++ notInstalledMsg "llama3.1" ["mistral:7b"]
      ∧ eventStream ⟨true, true, ["mistral:7b"], [], none, .ok "ok", none⟩
          ⟨"hello", none, none, none, none, none, none⟩
        = [.error (notInstalledMsg "llama3.1" ["mistral:7b"]), .done]) :=
  ⟨⟨rfl, rfl, rfl, by decide⟩,
    model_default_literal ⟨true, true, ["mistral:7b"], [], none, .ok "ok", none⟩
      ⟨"hello", none, none, none, none, none, none⟩ rfl rfl rfl (by decide)⟩

theorem lookup_storeSeed_self (st : Store) (k : String) (ms : List SeedMsg) :
    lookupStore (storeSeed st k ms) k = lookupStore st k ++ ms := by
  induction st with
  | nil => simp [storeSeed, lookupStore]
  | cons p rest ih =>
    by_cases hpk : p.1 = k <;> simp [storeSeed, lookupStore, hpk, ih]

theorem lookup_storeSeed_other (st : Store) (k k' : String) (ms : List SeedMsg)
    (hk : k' ≠ k) :
    lookupStore (storeSeed st k ms) k' = lookupStore st k' := by
  have hk2 : ¬ (k = k') := fun hh => hk hh.symm
  induction st with
  | nil => simp [storeSeed, lookupStore, hk2]
  | cons p rest ih =>
    by_cases hpk : p.1 = k
    · have hpk' : ¬ p.1 = k' := by rw [hpk]; exact hk2
      simp [storeSeed, lookupStore, hpk, hpk', hk2]
    · by_cases hpk' : p.1 = k' <;> simp [storeSeed, lookupStore, hpk, hpk', hk, hk2, ih]

/-- C10 (amended): a request with `user_context` absent, or with its
`conversation_id` missing or empty, gets session identifier "default".
When the backend integration is available, such a streaming request
appends the last 10 entries of its supplied history, mapped by role, to
the single shared "default" session history, leaving other sessions
untouched; when the integration is absent the fallback return precedes
the seeding block and the store is untouched. The one-shot endpoint
computes the same identifier but performs no store access at all. -/
theorem default_session (env : Backend) (st : Store) (req : ChatRequest)
    (h : req.userContext = none
       ∨ ∃ uc, req.userContext = some uc
           ∧ (uc.conversationId = none ∨ uc.conversationId = some "")) :
    sessionId req = "default"
    ∧ (env.ollamaAvailable = true →
        lookupStore (sseSeed env st req) "default"
            = lookupStore st "default" ++ seedMsgs req
        ∧ ∀ k, k ≠ "default" → lookupStore (sseSeed env st req) k = lookupStore st k)
    ∧ (env.ollamaAvailable = false → sseSeed env st req = st)
    ∧ (chatWithStore env st req).2 = st := by
  have hs : sessionId req = "default" := by
    rcases h with h0 | ⟨uc, h1, h2 | h2⟩
    · simp [sessionId, h0]
    · simp [sessionId, h1, h2]
    · simp [sessionId, h1, h2]
  refine ⟨hs, ?_, ?_, rfl⟩
  · intro ha
    simp only [sseSeed, ha, Bool.not_true, Bool.false_eq_true, if_false]
    rw [hs]
    exact ⟨lookup_storeSeed_self st "default" (seedMsgs req),
      fun k hk => lookup_storeSeed_other st "default" k (seedMsgs req) hk⟩
  · intro ha
    simp [sseSeed, ha]

/-- Witness for `default_session` at a concrete store, an available
backend, and a request with no user context. -/
theorem default_session_witness :
    ((⟨"hello", some [⟨"user", "hi"⟩], none, none, none, none, none⟩ : ChatRequest).userContext = none
      ∨ ∃ uc, (⟨"hello", some [⟨"user", "hi"⟩], none, none, none, none, none⟩ : ChatRequest).userContext = some uc
          ∧ (uc.conversationId = none ∨ uc.conversationId = some ""))
    ∧ (sessionId ⟨"hello", some [⟨"user", "hi"⟩], none, none, none, none, none⟩ = "default"
      ∧ ((⟨true, true, [], [], none, .ok "ok", none⟩ : Backend).ollamaAvailable = true →
          lookupStore (sseSeed ⟨true, true, [], [], none, .ok "ok", none⟩ [("other", [])]
              ⟨"hello", some [⟨"user", "hi"⟩], none, none, none, none, none⟩) "default"
            = lookupStore [("other", [])] "default"
                ++ seedMsgs ⟨"hello", some [⟨"user", "hi"⟩], none, none, none, none, none⟩
          ∧ ∀ k, k ≠ "default" →
              lookupStore (sseSeed ⟨true, true, [], [], none, .ok "ok", none⟩ [("other", [])]
                  ⟨"hello", some [⟨"user", "hi"⟩], none, none, none, none, none⟩) k
                = lookupStore [("other", [])] k)
      ∧ ((⟨true, true, [], [], none, .ok "ok", none⟩ : Backend).ollamaAvailable = false →
          sseSeed ⟨true, true, [], [], none, .ok "ok", none⟩ [("other", [])]
              ⟨"hello", some [⟨"user", "hi"⟩], none, none, none, none, none⟩
            = [("other", [])])
      ∧ (chatWithStore ⟨true, true, [], [], none, .ok "ok", none⟩ [("other", [])]
          ⟨"hello", some [⟨"user", "hi"⟩], none, none, none, none, none⟩).2 = [("other", [])]) :=
  ⟨Or.inl rfl,
    default_session ⟨true, true, [], [], none, .ok "ok", none⟩ [("other", [])]
      ⟨"hello", some [⟨"user", "hi"⟩], none, none, none, none, none⟩ (Or.inl rfl)⟩

/-- C10 counterexample: a one-shot request with user context absent and a
non-empty supplied history leaves the store untouched — it does not
append to the shared "default" session history as the claim states. -/
theorem chat_no_store_append :
    (chatWithStore ⟨true, true, ["llama3.1"], [], none, .ok "hello there", none⟩ []
        ⟨"hello", some [⟨"user", "hi"⟩], none, none, none, none, none⟩).2 = ([] : Store)
    ∧ seedMsgs ⟨"hello", some [⟨"user", "hi"⟩], none, none, none, none, none⟩ ≠ [] :=
  ⟨rfl, by decide⟩

theorem getLast?_cons_concat (a : StreamEvent) (l : List StreamEvent) (b : StreamEvent) :
    (a :: (l ++ [b])).getLast? = some b := by
  rw [← List.cons_append]
  exact List.getLast?_concat _

theorem countP_tokens_done (l : List String) :
    (l.map StreamEvent.token).countP isDoneEv = 0 := by
  simp [List.countP_eq_zero, isDoneEv]

theorem countP_tokens_error (l : List String) :
    (l.map StreamEvent.token).countP isErrorEv = 0 := by
  simp [List.countP_eq_zero, isErrorEv]

/-- C1: on every path (fallback, resolver failure, error mid-stream,
normal completion) the event sequence is non-empty, its last event is
`done`, and `done` occurs exactly once — so nothing follows it. -/
theorem stream_always_done (env : Backend) (req : ChatRequest) :
    eventStream env req ≠ []
    ∧ (eventStream env req).getLast? = some .done
    ∧ (eventStream env req).countP isDoneEv = 1 := by
  unfold eventStream
  by_cases ha : env.ollamaAvailable
  · rcases hg : get_llm env.providerAvailable (some (pyOrStr req.model "llama3.1"))
        env.names true with e | ⟨sel, b⟩
    · simp [ha, hg, isDoneEv]
    · rcases hs : env.streamFail with _ | e
      · refine ⟨by simp [ha, hg, hs], ?_, ?_⟩
        · simp only [ha, hg, hs, Bool.not_true, Bool.false_eq_true, if_false,
            List.append_nil]
          exact getLast?_cons_concat _ _ _
        · simp [ha, hg, hs, List.countP_cons, countP_tokens_done, isDoneEv]
      · refine ⟨by simp [ha, hg, hs], ?_, ?_⟩
        · simp only [ha, hg, hs, Bool.not_true, Bool.false_eq_true, if_false]
          exact getLast?_cons_concat _ _ _
        · simp [ha, hg, hs, List.countP_cons, List.countP_append,
            countP_tokens_done, isDoneEv]
  · simp [ha, isDoneEv]

/-- C8: any failure during handle acquisition or token iteration becomes
exactly one `error` event carrying the raised message, the exception does
not escape (the stream is still a well-formed event list), and the
terminal `done` event still follows. -/
theorem stream_failure (env : Backend) (req : ChatRequest) (e : String)
    (ha : env.ollamaAvailable = true)
    (h : get_llm env.providerAvailable (some (pyOrStr req.model "llama3.1")) env.names true
          = .error e
       ∨ ((∃ sel, get_llm env.providerAvailable (some (pyOrStr req.model "llama3.1"))
              env.names true = .ok (sel, true))
          ∧ env.streamFail = some e)) :
    StreamEvent.error e ∈ eventStream env req
    ∧ (eventStream env req).countP isErrorEv = 1
    ∧ (eventStream env req).getLast? = some .done := by
  unfold eventStream
  rcases h with hg | ⟨⟨sel, hg⟩, hs⟩
  · simp [ha, hg, isErrorEv]
  · refine ⟨by simp [ha, hg, hs], ?_, ?_⟩
    · simp [ha, hg, hs, List.countP_cons, List.countP_append,
        countP_tokens_error, isErrorEv]
    · simp only [ha, hg, hs, Bool.not_true, Bool.false_eq_true, if_false]
      exact getLast?_cons_concat _ _ _

/-- Witness for `stream_failure`: a concrete environment whose token
iteration raises "boom" after two chunks. -/
theorem stream_failure_witness :
    ((⟨true, true, ["llama3.1"], ["He", "llo"], some "boom", .ok "", none⟩ : Backend).ollamaAvailable = true
      ∧ (get_llm true (some (pyOrStr none "llama3.1")) ["llama3.1"] true
            = .error "boom"
        ∨ ((∃ sel, get_llm true (some (pyOrStr none "llama3.1")) ["llama3.1"] true
              = .ok (sel, true))
          ∧ (some "boom" : Option String) = some "boom")))
    ∧ (StreamEvent.error "boom"
        ∈ eventStream ⟨true, true, ["llama3.1"], ["He", "llo"], some "boom", .ok "", none⟩
            ⟨"hi", none, none, none, none, none, none⟩
      ∧ (eventStream ⟨true, true, ["llama3.1"], ["He", "llo"], some "boom", .ok "", none⟩
            ⟨"hi", none, none, none, none, none, none⟩).countP isErrorEv = 1
      ∧ (eventStream ⟨true, true, ["llama3.1"], ["He", "llo"], some "boom", .ok "", none⟩
            ⟨"hi", none, none, none, none, none, none⟩).getLast? = some .done) :=
  ⟨⟨rfl, Or.inr ⟨⟨"llama3.1", by decide⟩, rfl⟩⟩,
    stream_failure ⟨true, true, ["llama3.1"], ["He", "llo"], some "boom", .ok "", none⟩
      ⟨"hi", none, none, none, none, none, none⟩ "boom" rfl
      (Or.inr ⟨⟨"llama3.1", by decide⟩, rfl⟩)⟩

/-! ### Token-count lemmas for the title bound -/

theorem tokensAux_flag (l : List Char) :
    tokensAux true l ≤ tokensAux false l
    ∧ tokensAux false l ≤ tokensAux true l + 1 := by
  induction l with
  | nil => simp [tokensAux]
  | cons c cs ih =>
    by_cases h : pySpace c <;> simp [tokensAux, h]
    omega

theorem tokensAux_cons_le (c : Char) (l : List Char) :
    tokensAux false l ≤ tokensAux false (c :: l) := by
  by_cases h : pySpace c <;> simp [tokensAux, h]
  have := tokensAux_flag l
  omega

theorem tokensAux_dropWhile_le (p : Char → Bool) (l : List Char) :
    tokensAux false (l.dropWhile p) ≤ tokensAux false l := by
  induction l with
  | nil => simp
  | cons c cs ih =>
    by_cases h : p c <;> simp [List.dropWhile_cons, h]
    exact le_trans ih (tokensAux_cons_le c cs)

theorem tokensAux_take_le (l : List Char) : ∀ (n : Nat) (f : Bool),
    tokensAux f (l.take n) ≤ tokensAux f l := by
  induction l with
  | nil => intro n f; simp
  | cons c cs ih =>
    intro n f
    cases n with
    | zero => simp [tokensAux]
    | succ n =>
      by_cases h : pySpace c <;> simp [tokensAux, h]
      · exact ih n false
      · exact ih n true

theorem rdrop_eq_take (p : Char → Bool) (l : List Char) :
    ∃ n, rdrop p l = l.take n := by
  induction l with
  | nil => exact ⟨0, rfl⟩
  | cons c cs ih =>
    rcases hr : rdrop p cs with _ | ⟨x, xs⟩
    · by_cases h : p c
      · exact ⟨0, by simp [rdrop, hr, h]⟩
      · exact ⟨1, by simp [rdrop, hr, h]⟩
    · rcases ih with ⟨n, hn⟩
      have h2 : x :: xs = cs.take n := by rw [← hr, hn]
      exact ⟨n + 1, by simp [rdrop, hr, ← h2]⟩

theorem tokensAux_rdrop_le (p : Char → Bool) (l : List Char) (f : Bool) :
    tokensAux f (rdrop p l) ≤ tokensAux f l := by
  rcases rdrop_eq_take p l with ⟨n, hn⟩
  rw [hn]
  exact tokensAux_take_le l n f

theorem mem_of_rdrop (p : Char → Bool) (l : List Char) (c : Char)
    (h : c ∈ rdrop p l) : c ∈ l := by
  rcases rdrop_eq_take p l with ⟨n, hn⟩
  rw [hn] at h
  exact List.mem_of_mem_take h

theorem mem_of_pyStripL (l : List Char) (c : Char) (h : c ∈ pyStripL l) :
    c ∈ l := by
  have h1 := mem_of_rdrop pySpace (ldropSpace l) c h
  exact (List.dropWhile_sublist pySpace).subset h1

theorem collapse_space_eq (f : Bool) (l : List Char) :
    ∀ c ∈ collapseAux f l, pySpace c → c = ' ' := by
  induction l generalizing f with
  | nil => simp [collapseAux]
  | cons a as ih =>
    intro c hc hsp
    by_cases h : pySpace a
    · by_cases hf : f
      · exact ih true c (by simpa [collapseAux, h, hf] using hc) hsp
      · rcases (by simpa [collapseAux, h, hf] using hc :
            c = ' ' ∨ c ∈ collapseAux true as) with h1 | h1
        · exact h1
        · exact ih true c h1 hsp
    · rcases (by simpa [collapseAux, h] using hc :
          c = a ∨ c ∈ collapseAux false as) with h1 | h1
      · subst h1; exact absurd hsp (by simpa using h)
      · exact ih false c h1 hsp

theorem splitSp_ne_nil (l : List Char) : splitSp l ≠ [] := by
  cases l with
  | nil => simp [splitSp]
  | cons c cs =>
    by_cases h : c = ' '
    · simp [splitSp, h]
    · rcases hs : splitSp cs with _ | ⟨w, ws⟩ <;> simp [splitSp, h, hs]

theorem mem_splitSp (c : Char) (l : List Char) :
    ∀ w ∈ splitSp l, c ∈ w → c ∈ l ∧ c ≠ ' ' := by
  induction l with
  | nil =>
    intro w hw hc
    simp [splitSp] at hw
    subst hw
    simp at hc
  | cons a as ih =>
    intro w hw hc
    by_cases h : a = ' '
    · rcases (by simpa [splitSp, h] using hw : w = [] ∨ w ∈ splitSp as) with h1 | h1
      · subst h1; simp at hc
      · have := ih w h1 hc
        exact ⟨List.mem_cons_of_mem a this.1, this.2⟩
    · rcases hs : splitSp as with _ | ⟨w0, ws⟩
      · exact absurd hs (splitSp_ne_nil as)
      · rcases (by simpa [splitSp, h, hs] using hw : w = a :: w0 ∨ w ∈ ws) with h1 | h1
        · subst h1
          rcases List.mem_cons.mp hc with h2 | h2
          · subst h2; exact ⟨List.mem_cons_self c as, h⟩
          · have := ih w0 (by rw [hs]; exact List.mem_cons_self w0 ws) h2
            exact ⟨List.mem_cons_of_mem a this.1, this.2⟩
        · have := ih w (by rw [hs]; exact List.mem_cons_of_mem w0 h1) hc
          exact ⟨List.mem_cons_of_mem a this.1, this.2⟩

theorem tokensAux_le_splitSp (l : List Char)
    (hl : ∀ c ∈ l, pySpace c → c = ' ') :
    tokensAux true l + 1 ≤ (splitSp l).length
    ∧ tokensAux false l ≤ (splitSp l).length := by
  induction l with
  | nil => simp [tokensAux, splitSp]
  | cons a as ih =>
    have ih' := ih (fun c hc => hl c (List.mem_cons_of_mem a hc))
    by_cases h : a = ' '
    · subst h
      simp [tokensAux, splitSp, (by decide : pySpace ' ' = true)]
      omega
    · have hnsp : ¬ pySpace a := by
        intro hs
        exact h (hl a (List.mem_cons_self a as) hs)
      rcases hs : splitSp as with _ | ⟨w0, ws⟩
      · exact absurd hs (splitSp_ne_nil as)
      · simp [tokensAux, splitSp, h, hnsp, hs]
        rw [hs] at ih'
        simp at ih'
        omega

theorem tokensAux_true_nospace (l : List Char) (h : ∀ c ∈ l, ¬ pySpace c) :
    tokensAux true l = 0 := by
  induction l with
  | nil => rfl
  | cons c cs ih =>
    have hc := h c (List.mem_cons_self c cs)
    simp [tokensAux, hc]
    exact ih (fun x hx => h x (List.mem_cons_of_mem c hx))

theorem tokensAux_false_nospace (l : List Char) (h : ∀ c ∈ l, ¬ pySpace c) :
    tokensAux false l ≤ 1 := by
  cases l with
  | nil => simp [tokensAux]
  | cons c cs =>
    have hc := h c (List.mem_cons_self c cs)
    simp [tokensAux, hc]
    rw [tokensAux_true_nospace cs (fun x hx => h x (List.mem_cons_of_mem c hx))]

theorem tokensAux_true_word_sep (rest : List Char) (w : List Char)
    (hw : ∀ c ∈ w, ¬ pySpace c) :
    tokensAux true (w ++ ' ' :: rest) = tokensAux false rest := by
  induction w with
  | nil => simp [tokensAux, (by decide : pySpace ' ' = true)]
  | cons c cs ih =>
    have hc := hw c (List.mem_cons_self c cs)
    simp [tokensAux, hc]
    exact ih (fun x hx => hw x (List.mem_cons_of_mem c hx))

theorem tokensAux_word_sep (rest : List Char) (w : List Char)
    (hw : ∀ c ∈ w, ¬ pySpace c) (f : Bool) :
    tokensAux f (w ++ ' ' :: rest) ≤ 1 + tokensAux false rest := by
  cases w with
  | nil =>
    simp [tokensAux, (by decide : pySpace ' ' = true)]
  | cons c cs =>
    have hc := hw c (List.mem_cons_self c cs)
    simp [tokensAux, hc]
    rw [tokensAux_true_word_sep rest cs (fun x hx => hw x (List.mem_cons_of_mem c hx))]
    cases f <;> simp

theorem tokensAux_joinSp (ws : List (List Char)) :
    (∀ w ∈ ws, ∀ c ∈ w, ¬ pySpace c) →
    tokensAux false (joinSp ws) ≤ ws.length := by
  induction ws with
  | nil => intro _; simp [joinSp, tokensAux]
  | cons w rest ih =>
    intro h
    cases rest with
    | nil =>
      simpa [joinSp] using
        tokensAux_false_nospace w (h w (List.mem_cons_self w []))
    | cons w2 ws2 =>
      have h1 : joinSp (w :: w2 :: ws2) = w ++ ' ' :: joinSp (w2 :: ws2) := rfl
      rw [h1]
      calc tokensAux false (w ++ ' ' :: joinSp (w2 :: ws2))
          ≤ 1 + tokensAux false (joinSp (w2 :: ws2)) :=
            tokensAux_word_sep _ w (h w (List.mem_cons_self w _)) false
        _ ≤ 1 + (w2 :: ws2).length := by
            have := ih (fun x hx => h x (List.mem_cons_of_mem w hx))
            omega
        _ = (w :: w2 :: ws2).length := by simp; omega

theorem tokensAux_truncWords (t2 : List Char) (maxWords : Nat)
    (h : ∀ c ∈ t2, pySpace c → c = ' ') :
    tokensAux false (truncWords t2 maxWords) ≤ maxWords := by
  unfold truncWords
  by_cases hlen : (splitSp t2).length > maxWords
  · simp only [hlen, if_true]
    have hpieces : ∀ w ∈ (splitSp t2).take maxWords, ∀ c ∈ w, ¬ pySpace c := by
      intro w hw c hc hspc
      have hw2 : w ∈ splitSp t2 := List.mem_of_mem_take hw
      have h2 := mem_splitSp c t2 w hw2 hc
      exact h2.2 (h c h2.1 hspc)
    have h1 := tokensAux_joinSp _ hpieces
    have h2 : ((splitSp t2).take maxWords).length ≤ maxWords := by
      simp [List.length_take]
    omega
  · simp only [hlen, if_false]
    have h1 := (tokensAux_le_splitSp t2 h).2
    omega

theorem tokensAux_stripEnds_le (t3 : List Char) :
    tokensAux false (stripEnds t3) ≤ tokensAux false t3 := by
  unfold stripEnds
  calc tokensAux false (rdrop isPunctStrip (rdrop isQuoteStrip (t3.dropWhile isQuoteStrip)))
      ≤ tokensAux false (rdrop isQuoteStrip (t3.dropWhile isQuoteStrip)) :=
        tokensAux_rdrop_le isPunctStrip _ false
    _ ≤ tokensAux false (t3.dropWhile isQuoteStrip) :=
        tokensAux_rdrop_le isQuoteStrip _ false
    _ ≤ tokensAux false t3 := tokensAux_dropWhile_le isQuoteStrip t3

theorem finalize_bound (text : List Char) (maxWords : Nat) :
    tokensAux false (finalizeTitle text maxWords) ≤ max maxWords 2
    ∧ finalizeTitle text maxWords ≠ [] := by
  have hsp : ∀ c ∈ pyStripL (collapseWs (stripHeadings (stripFences text))),
      pySpace c → c = ' ' := by
    intro c hc hspc
    have hc2 : c ∈ collapseWs (stripHeadings (stripFences text)) :=
      mem_of_pyStripL _ c hc
    simp only [collapseWs] at hc2
    exact collapse_space_eq false _ c hc2 hspc
  have h3 := tokensAux_truncWords _ maxWords hsp
  have h5 := le_trans (tokensAux_stripEnds_le
    (truncWords (pyStripL (collapseWs (stripHeadings (stripFences text)))) maxWords)) h3
  unfold finalizeTitle
  by_cases hemp : (stripEnds
      (truncWords (pyStripL (collapseWs (stripHeadings (stripFences text)))) maxWords)).isEmpty
  · simp only [hemp, if_true]
    refine ⟨?_, by decide⟩
    rw [(by decide : tokensAux false "New Chat".data = 2)]
    exact le_max_right maxWords 2
  · simp only [hemp, if_false]
    refine ⟨le_trans h5 (le_max_left maxWords 2), ?_⟩
    rw [List.isEmpty_iff] at hemp
    exact hemp

theorem heuristicTitle_bound (messages : List HistoryItem) (maxWords : Nat) :
    tokensS (heuristicTitle messages maxWords) ≤ max maxWords 2
    ∧ heuristicTitle messages maxWords ≠ "" := by
  have h := finalize_bound
    (pyStripS (pyOrStr (some (selectText messages)) "New Chat")).data maxWords
  constructor
  · simpa [tokensS, heuristicTitle] using h.1
  · intro heq
    apply h.2
    have h2 := congrArg String.data heq
    simpa [heuristicTitle] using h2

theorem boostClean_some_ne (r : String) (t : String)
    (h : boostClean r = some t) : t ≠ "" := by
  unfold boostClean at h
  by_cases h1 : (pyStripL r.data).isEmpty
  · simp [h1] at h
  · by_cases h2 : (boostCleanCore r).isEmpty
    · simp [h1, h2] at h
    · simp only [h1, h2, if_false] at h
      intro heq
      have h3 := congrArg String.data ((Option.some.inj h).trans heq)
      apply h2
      simpa using h3

/-- C5 (amended): the title operation always returns a non-empty string;
the heuristic result — the one returned whenever the model boost does not
produce a usable response — contains at most max(max_words, 2)
whitespace-delimited tokens (the "New Chat" fallback accounts for the 2);
the boost result is non-empty but its token count is not bounded by
max_words (see the counterexample). -/
theorem title_nonempty_bound (env : Backend) (messages : List HistoryItem)
    (model : Option String) (maxWords : Nat) :
    generateTitle env messages model maxWords ≠ ""
    ∧ tokensS (heuristicTitle messages maxWords) ≤ max maxWords 2 := by
  have hh := heuristicTitle_bound messages maxWords
  refine ⟨?_, hh.1⟩
  unfold generateTitle
  by_cases ha : env.ollamaAvailable
  · simp only [ha, if_true]
    rcases hg : get_llm env.providerAvailable model env.names false with e | v
    · exact hh.2
    · rcases hb : env.boostResponse with _ | r
      · exact hh.2
      · rcases hc : boostClean r with _ | t
        · simp only [hc]
          exact hh.2
        · simp only [hc]
          exact boostClean_some_ne r t hc
  · simp only [ha, if_false]
    exact hh.2

/-- C5 counterexample: with max_words = 6 and a 7-word model-boost
response, the title operation returns all 7 tokens — the result is not
bounded by max_words when it comes from the boost. -/
theorem title_boost_exceeds :
    6 < tokensS (generateTitle
      ⟨true, true, ["llama3.1"], [], none, .ok "",
        some "Alpha Beta Gamma Delta Epsilon Zeta Eta"⟩
      [⟨"user", "hi"⟩] (some "llama3.1") 6) := by decide

end OpenChat
